import Mathlib

/-!
Shallow embedding of `sfoda/dataio/datadownload/mythredds.py`.

The embedding models:
* `GridDAP.get_time_indices`, `GridDAP.get_indices` (window resolution),
* `GridDAP.find_nearest_1d` (nearest-index search),
* `MFncdap.__init__` and `MFncdap.__call__` (multi-file time aggregation
  and per-file slice grouping),
* `GridDAP.get_data_multifile` (stitching loop),
* `GridDAP.get_data_singlefile` (bulk read, 2d read, and the
  step-by-step fallback loops),
* the retry-on-exception recursions (`openfile`, `get_2d`),
* `GetDAP.check_trange`, `GetDAP.__call__`,
* `GetDAP.write_time_var` / `GetDAP.write_var` (append reconciliation).

Physical coordinate values and calendar timestamps are modelled as
integers (only their ordered arithmetic matters), data rows as integers
or an abstract row type.  Remote reads are oracles
(`read : index → row`); numpy arrays are lists (nested where the shape
matters).
-/

namespace MyThredds

/-! ### numpy / Python list primitives -/

/-- Model of `np.abs` on a scalar (`abs` spelled out so that the kernel can
evaluate it on concrete inputs). -/
def pyAbs (q : ℤ) : ℤ := if q < 0 then -q else q

/-- Model of Python `min(vals)` on a nonempty list of naturals
(0 on the empty list, which Python would reject). -/
def pyMin : List ℕ → ℕ
  | [] => 0
  | x :: xs => xs.foldl min x

/-- Model of Python `max(vals)` on a nonempty list of naturals. -/
def pyMax : List ℕ → ℕ
  | [] => 0
  | x :: xs => xs.foldl max x

/-- Model of `np.min` of a list of coordinate values (first minimal value;
0 on the empty list, which numpy would reject). -/
def pyMinQ : List ℤ → ℤ
  | [] => 0
  | x :: xs => xs.foldl (fun a b => if b < a then b else a) x

/-- Model of a numpy slice assignment `arr[p : p + vals.length] = vals` on a
netCDF unlimited axis: positions below `p` are kept, the slice is
overwritten, and the tail beyond the slice is kept (the axis grows when the
slice runs past the current end).  The embedding is only used with
`p ≤ l.length`, matching the reachable calls in the source. -/
def slice_assign {α : Type _} (l : List α) (p : ℕ) (vals : List α) : List α :=
  l.take p ++ vals ++ l.drop (p + vals.length)

/-- Model of `np.unique`: sort, then remove duplicates. -/
def npUnique (l : List ℤ) : List ℤ :=
  (List.insertionSort (· ≤ ·) l).dedup

/-! ### `GridDAP` window resolution

`find_nearest_1d` mirrors
`dist = np.abs(data-value); np.argwhere(dist==dist.min())[0][0]`:
the first index attaining the minimal distance. -/

def find_nearest_1d (data : List ℤ) (value : ℤ) : ℕ :=
  let dist := data.map (fun d => pyAbs (d - value))
  dist.indexOf (pyMinQ dist)

/-- `GridDAP.get_time_indices` (lines 99-126).  `findNearest` stands for the
external collaborator `othertime.findNearest(t, self.time)`; `timeLen` is
`self.time.shape[0]`.  Returns `(t1, t2)`.  Note that the widening
`if self.t1==self.t2: self.t2+=1` sits after both branches in the source. -/
def get_time_indices (findNearest : ℤ → ℕ) (timeLen : ℕ)
    (trange : Option (ℤ × ℤ)) : ℕ × ℕ :=
  let p := match trange with
    | none => (0, timeLen)
    | some r => (findNearest r.1, findNearest r.2)
  if p.1 = p.2 then (p.1, p.2 + 1) else p

/-- The four spatial indices set by `GridDAP.get_indices` (1-D branch). -/
structure SpatialWindow where
  x1 : ℕ
  x2 : ℕ
  y1 : ℕ
  y2 : ℕ

/-- `self.nx = self.x2 - self.x1` (Python integer arithmetic). -/
def SpatialWindow.nx (w : SpatialWindow) : ℤ := (w.x2 : ℤ) - (w.x1 : ℤ)

/-- `self.ny = self.y2 - self.y1`. -/
def SpatialWindow.ny (w : SpatialWindow) : ℤ := (w.y2 : ℤ) - (w.y1 : ℤ)

/-- `GridDAP.get_indices` (lines 128-165), 1-D `X`/`Y` branch: the x window
takes the two nearest indices in the given order; the y window is
min/max-normalised; neither is widened when start = end. -/
def get_indices_1d (X Y : List ℤ) (xrange yrange : Option (ℤ × ℤ)) :
    SpatialWindow :=
  let xw := match xrange with
    | none => (0, X.length)
    | some r => (find_nearest_1d X r.1, find_nearest_1d X r.2)
  let yw := match yrange with
    | none => (0, Y.length)
    | some r =>
      let a := find_nearest_1d Y r.1
      let b := find_nearest_1d Y r.2
      (min a b, max a b)
  ⟨xw.1, xw.2, yw.1, yw.2⟩

/-- `GridDAP.get_indices` depth branch (lines 167-176): widened when
`z1 == z2`.  The source calls `self.find_nearest_1d(zrange[0], self.Z)`
with the arguments swapped; since `np.abs(a - Z) = np.abs(Z - a)`
pointwise, the computed index is the same and the embedding keeps the
usual argument order. -/
def get_z_indices (Z : List ℤ) (zrange : Option (ℤ × ℤ)) : ℕ × ℕ :=
  match zrange with
  | none => (0, Z.length)
  | some r =>
    let z1 := find_nearest_1d Z r.1
    let z2 := find_nearest_1d Z r.2
    if z1 = z2 then (z1, z2 + 1) else (z1, z2)

/-! ### `MFncdap.__init__`: the time-axis aggregation

The lookup `self._timelookup` is a Python dict keyed by the formatted
timestamp; we key by the timestamp itself (the format is injective down to
seconds, and the claims only concern equal timestamps).  A dict assignment
overwrites in place when the key exists and appends otherwise. -/

/-- Python `d[k] = v` on an insertion-ordered dict, as an association
list. -/
def dictInsert (lk : List (ℤ × ℕ × ℕ)) (k : ℤ) (v : ℕ × ℕ) :
    List (ℤ × ℕ × ℕ) :=
  if lk.any (fun e => e.1 == k) then
    lk.map (fun e => if e.1 == k then (k, v) else e)
  else lk ++ [(k, v)]

/-- Python `d[k]` (as an `Option`). -/
def lookupGet (lk : List (ℤ × ℕ × ℕ)) (k : ℤ) : Option (ℕ × ℕ) :=
  (lk.find? (fun e => e.1 == k)).map (fun e => e.2)

/-- The inner loop `for ii,tt in enumerate(time): self._timelookup[tstr]=(f,ii)`
of `MFncdap.__init__`, with the running local record index made explicit. -/
def insertFileTimesAux (f : ℕ) : List ℤ → ℕ → List (ℤ × ℕ × ℕ) →
    List (ℤ × ℕ × ℕ)
  | [], _, lk => lk
  | t :: ts, i, lk => insertFileTimesAux f ts (i + 1) (dictInsert lk t (f, i))

def insertFileTimes (lk : List (ℤ × ℕ × ℕ)) (f : ℕ) (ts : List ℤ) :
    List (ℤ × ℕ × ℕ) :=
  insertFileTimesAux f ts 0 lk

/-- `MFncdap.__init__` over a list of files `(file id, raw time axis)`:
builds the timestamp lookup. -/
def mfLookup (files : List (ℕ × List ℤ)) : List (ℤ × ℕ × ℕ) :=
  files.foldl (fun lk fd => insertFileTimes lk fd.1 fd.2) []

/-- `self.time = np.unique(timeall)`: the sorted, deduplicated logical
time axis. -/
def mfTime (files : List (ℕ × List ℤ)) : List ℤ :=
  npUnique (files.foldr (fun fd acc => fd.2 ++ acc) [])

/-- Specification helper: the last `(file, index)` write for timestamp `t`
when scanning `ts` with local indices starting at `i` (used to state what
dict overwriting converges to). -/
def lastIdxFrom : List ℤ → ℕ → ℤ → Option ℕ
  | [], _, _ => none
  | x :: ts, i, t =>
    match lastIdxFrom ts (i + 1) t with
    | some j => some j
    | none => if x = t then some i else none

/-- Specification helper: the last file (with its last local index) that
reports timestamp `t`, in input list order. -/
def mfLastEntry (files : List (ℕ × List ℤ)) (t : ℤ) : Option (ℕ × ℕ) :=
  files.foldl
    (fun acc fd =>
      match lastIdxFrom fd.2 0 t with
      | some j => some (fd.1, j)
      | none => acc) none

/-! ### `MFncdap.__call__`: grouping the requested records per file -/

/-- One step of building `tslice_dict` (an insertion-ordered dict mapping a
file to the list of requested local record indices):
`if f not in d: d[f] = []` then `d[f].append(tt)`. -/
def odInsert (d : List (ℕ × List ℕ)) (f : ℕ) (t : ℕ) : List (ℕ × List ℕ) :=
  if d.any (fun e => e.1 == f) then
    d.map (fun e => if e.1 == f then (e.1, e.2 ++ [t]) else e)
  else d ++ [(f, [t])]

/-- `MFncdap.__call__` dict-building loop, starting from the resolved
`(file, local index)` pair per requested timestamp, in global time
order. -/
def buildTslice (pairs : List (ℕ × ℕ)) : List (ℕ × List ℕ) :=
  pairs.foldl (fun d p => odInsert d p.1 p.2) []

/-- `tslice_dict[f] = [min(vals), max(vals)]`. -/
def tsliceMinMax (d : List (ℕ × List ℕ)) : List (ℕ × ℕ × ℕ) :=
  d.map (fun e => (e.1, pyMin e.2, pyMax e.2))

/-! ### `GridDAP.get_data_multifile`: the stitching loop -/

/-- numpy `data[p1 : p1 + chunk.length, ...] = chunk` on the pre-allocated
output array. -/
def writeBlock {ρ : Type _} (arr : List ρ) (p : ℕ) (chunk : List ρ) :
    List ρ :=
  arr.take p ++ chunk ++ arr.drop (p + chunk.length)

/-- The download loop of `get_data_multifile` (lines 265-274): for each file
`f` with slice `[t1, t2]`, read records `t1 .. t2` (the source calls
`get_data_singlefile(varname, nc, t1, t2+1)`), assign them to output rows
`p1 .. p1 + (t2 - t1)`, and advance `p1` to `p2 + 1`.  `read f i` is the
bulk-read oracle for record `i` of file `f` (already sliced spatially). -/
def stitchLoop {ρ : Type _} (read : ℕ → ℕ → ρ) :
    List (ℕ × ℕ × ℕ) → ℕ → List ρ → List ρ
  | [], _, arr => arr
  | b :: rest, p1, arr =>
    let chunk := (List.range (b.2.2 + 1 - b.2.1)).map (fun j => read b.1 (b.2.1 + j))
    stitchLoop read rest (p1 + (b.2.2 - b.2.1) + 1) (writeBlock arr p1 chunk)

/-- `GridDAP.get_data_multifile`, from the resolved `(file, record)` pairs of
the requested window: allocate `np.zeros((nt, ...))`, group the pairs with
`MFncdap.__call__`, and run the download loop. -/
def get_data_multifile {ρ : Type _} (read : ℕ → ℕ → ρ) (zero : ρ) (nt : ℕ)
    (pairs : List (ℕ × ℕ)) : List ρ :=
  stitchLoop read (tsliceMinMax (buildTslice pairs)) 0 (List.replicate nt zero)

/-- Specification helper: the `(file, record)` pairs contributed by a run
`(f, start, len)` of consecutive records of one file. -/
def runPairs (r : ℕ × ℕ × ℕ) : List (ℕ × ℕ) :=
  (List.range r.2.2).map (fun j => (r.1, r.2.1 + j))

/-- Specification helper: flatten a list of per-file runs into the requested
`(file, record)` sequence in global time order. -/
def runsPairs (runs : List (ℕ × ℕ × ℕ)) : List (ℕ × ℕ) :=
  runs.foldr (fun r acc => runPairs r ++ acc) []

/-! ### `GridDAP.get_data_singlefile` -/

/-- The bulk rectangular read
`nc.variables[varname][t1:t2, self.y1:self.y2, self.x1:self.x2]`:
one (already spatially sliced) row per time record.  `readRec i` is the
remote row for record `i`. -/
def bulk3d {ρ : Type _} (readRec : ℕ → ρ) (t1 t2 : ℕ) : List ρ :=
  (List.range (t2 - t1)).map (fun j => readRec (t1 + j))

/-- One full pass of `get_3d_step` with no transport failure:
`for ii,tt in enumerate(range(tstart,t2)): data[ii,...] = read(tt)`. -/
def get_3d_step_noerr {ρ : Type _} (readRec : ℕ → ρ) (data : List ρ)
    (tstart t2 : ℕ) : List ρ :=
  (List.range (t2 - tstart)).foldl
    (fun arr ii => arr.set ii (readRec (tstart + ii))) data

/-- The `except` branch of the 3-D case of `get_data_singlefile`:
`data = np.zeros((self.nt, self.ny, self.nx)); data = get_3d_step(data, t1)`,
with the fallback pass completing without failure.  `nt` is `self.nt`
(set by `get_time_indices`), not `t2 - t1`. -/
def fallback3d {ρ : Type _} (zero : ρ) (readRec : ℕ → ρ) (nt t1 t2 : ℕ) :
    List ρ :=
  get_3d_step_noerr readRec (List.replicate nt zero) t1 t2

/-- 4-D analogue of `bulk3d` (rows additionally carry the depth axis). -/
def bulk4d {ρ : Type _} (readRec : ℕ → ρ) (t1 t2 : ℕ) : List ρ :=
  (List.range (t2 - t1)).map (fun j => readRec (t1 + j))

/-- One full pass of `get_4d_step` with no transport failure. -/
def get_4d_step_noerr {ρ : Type _} (readRec : ℕ → ρ) (data : List ρ)
    (tstart t2 : ℕ) : List ρ :=
  (List.range (t2 - tstart)).foldl
    (fun arr ii => arr.set ii (readRec (tstart + ii))) data

/-- The `except` branch of the 4-D case of `get_data_singlefile`. -/
def fallback4d {ρ : Type _} (zero : ρ) (readRec : ℕ → ρ) (nt t1 t2 : ℕ) :
    List ρ :=
  get_4d_step_noerr readRec (List.replicate nt zero) t1 t2

/-! ### The 2-D branch of `get_data_singlefile` (claim C8)

Python arrays are dynamically shaped, so the 2-D branch is modelled with a
small nested-array type carrying its shape. -/

inductive NDArray where
  | leaf : ℤ → NDArray
  | node : List NDArray → NDArray

/-- The numpy `shape` of a (rectangular) nested array, read off the first
element of each level. -/
def ndshape : NDArray → List ℕ
  | .leaf _ => []
  | .node [] => [0]
  | .node (x :: xs) => (xs.length + 1) :: ndshape x

/-- `np.zeros((n, ny, nx))`. -/
def np_zeros3 (n ny nx : ℕ) : NDArray :=
  .node (List.replicate n (.node (List.replicate ny
    (.node (List.replicate nx (.leaf 0))))))

/-- A 2-D remote slice `nc.variables[varname][y1:y2, x1:x2]` as a nested
array. -/
def mat_to_nd (m : List (List ℤ)) : NDArray :=
  .node (m.map (fun row => .node (row.map .leaf)))

/-- `get_2d` on a successful first read: the `data` parameter is rebound to
the raw 2-D slice and returned; the passed-in array is discarded. -/
def get_2d_ok (slice : List (List ℤ)) (_data : NDArray) : NDArray :=
  mat_to_nd slice

/-- The `ndim == 2` branch of `get_data_singlefile` (lines 349-351):
`data = np.zeros((1, self.ny, self.nx)); data = get_2d(data)`. -/
def ndim2_branch (slice : List (List ℤ)) (ny nx : ℕ) : NDArray :=
  get_2d_ok slice (np_zeros3 1 ny nx)

/-! ### The retry recursions (claim C9)

`openfile` (lines 255-263) and `get_2d` (lines 301-312) retry the failed
remote operation unconditionally after a fixed sleep.  `attempt k` is the
outcome of the k-th attempt (`none` = the remote raises); the `fuel`
argument counts evaluation steps, so exhausted fuel at every depth models
the non-terminating run in which every attempt fails. -/

def openfileFuel {α : Type _} (attempt : ℕ → Option α) : ℕ → ℕ → Option α
  | _, 0 => none
  | k, fuel + 1 =>
    match attempt k with
    | some nc => some nc
    | none => openfileFuel attempt (k + 1) fuel

def get2dRetryFuel {α : Type _} (attempt : ℕ → Option α) : ℕ → ℕ → Option α
  | _, 0 => none
  | k, fuel + 1 =>
    match attempt k with
    | some d => some d
    | none => get2dRetryFuel attempt (k + 1) fuel

/-! ### `GetDAP.check_trange` (claim C2) -/

/-- The shapes a `trange` argument can take at `GetDAP.__call__`. -/
inductive TRangeArg where
  | noneArg : TRangeArg
  | strPair : String → String → TRangeArg
  | datetimePair : ℤ → ℤ → TRangeArg
  | otherPair : TRangeArg

/-- A Python call outcome: a value, or an uncaught exception. -/
inductive PyOutcome (α : Type _) where
  | ok : α → PyOutcome α
  | raised : String → PyOutcome α

/-- `GetDAP.check_trange` (lines 531-539).  `strptime` stands for
`datetime.strptime(_, self.tformat)`.  On `trange = None` the very first
expression `trange[0]` subscripts `None` and raises `TypeError` before any
branch is taken. -/
def check_trange (strptime : String → ℤ) : TRangeArg → PyOutcome (ℤ × ℤ)
  | .noneArg => .raised "TypeError"
  | .strPair a b => .ok (strptime a, strptime b)
  | .datetimePair a b => .ok (a, b)
  | .otherPair => .raised "unknown time format"

/-! ### `GetDAP.write_time_var` / `GetDAP.write_var` (claims C1, C7) -/

/-- The state of the output store restricted to one variable: its stored
time axis and its data rows (one abstract row per time position).  The
store has a time variable iff `tvals` is nonempty. -/
structure Store where
  tvals : List ℤ
  rows : List ℤ

/-- `GetDAP.write_time_var` (lines 649-710).  `lookup?` is the outcome of
`date2index(tout[0], t)` — `some i` when the exact calendar position is
found, `none` when the lookup raises (e.g. a single stored value).
Returns `self.tindex` and the new stored time axis.  The store-has-no-time
branch creates the variable and writes all of `tout` at offset 0. -/
def write_time_var (lookup? : Option ℕ) (tvals tout : List ℤ) :
    (ℕ × ℕ) × List ℤ :=
  if tvals ≠ [] then
    let t1 := match lookup? with
      | some i => i
      | none => if tvals.headD 0 < tout.headD 0 then 1 else 0
    let tindex := (t1, t1 + tout.length)
    if tvals.length < tindex.2 then (tindex, slice_assign tvals t1 tout)
    else (tindex, tvals)
  else ((0, tout.length), tout)

/-- `GetDAP.write_var` data write (lines 588-647), restricted to the time
axis and the data variable (coordinate-variable writes do not touch time
rows): compute `self.tindex` via `write_time_var`, then
`variables[remotevar][tindex[0]:tindex[1], ...] = data`.  Returns the new
store state together with the list of row positions written by the data
assignment. -/
def write_var (lookup? : Option ℕ) (st : Store) (tout : List ℤ)
    (data : List ℤ) : Store × List ℕ :=
  let r := write_time_var lookup? st.tvals tout
  (⟨r.2, slice_assign st.rows r.1.1 data⟩, List.range' r.1.1 (r.1.2 - r.1.1))

/-! ### `GetDAP.__call__` (claim C10) -/

/-- The variable loop of `GetDAP.__call__` (lines 488-495): for each
requested variable load its data, write it to the output file when one was
given, and finally return (only) the binding left by the last iteration.
Returns the written `(variable, data)` list and the returned value
(`none` models the `NameError` on an empty variable list). -/
def getdap_call (load : ℕ → ℤ) (writeOut : Bool) (vars : List ℕ) :
    List (ℕ × ℤ) × Option ℤ :=
  vars.foldl
    (fun acc vv =>
      (if writeOut then acc.1 ++ [(vv, load vv)] else acc.1, some (load vv)))
    ([], none)

/-! ## Helper lemmas -/

/-- Setting position `l₁.length` of `l₁ ++ x :: l₂` replaces `x`. -/
theorem set_append_cons {α : Type _} (l₁ : List α) (x v : α) (l₂ : List α)
    (n : ℕ) (h : n = l₁.length) : (l₁ ++ x :: l₂).set n v = l₁ ++ v :: l₂ := by
  subst h
  induction l₁ with
  | nil => rfl
  | cons a t ih => simp [ih]

/-- Writing `g ii` at index `ii` for every `ii < n` into a list of length at
least `n` yields `(range n).map g` followed by the untouched tail. -/
theorem setRange_eq_map {ρ : Type _} (g : ℕ → ρ) :
    ∀ (n : ℕ) (l : List ρ), n ≤ l.length →
      (List.range n).foldl (fun arr ii => arr.set ii (g ii)) l
        = (List.range n).map g ++ l.drop n := by
  intro n
  induction n with
  | zero => simp
  | succ n ih =>
    intro l hl
    have hn : n < l.length := Nat.lt_of_lt_of_le (Nat.lt_succ_self n) hl
    rw [List.range_succ, List.foldl_append, ih l (Nat.le_of_lt hn)]
    simp only [List.foldl_cons, List.foldl_nil]
    rw [List.drop_eq_getElem_cons hn]
    rw [set_append_cons _ _ _ _ n (by simp)]
    simp

/-- `openfileFuel` returns the first successful attempt, given enough fuel. -/
theorem openfileFuel_first_success {α : Type _} (attempt : ℕ → Option α)
    (v : α) :
    ∀ (n k fuel : ℕ), n < fuel → attempt (k + n) = some v →
      (∀ m, m < n → attempt (k + m) = none) →
      openfileFuel attempt k fuel = some v := by
  intro n
  induction n with
  | zero =>
    intro k fuel hfuel hv _
    match fuel, hfuel with
    | fuel + 1, _ =>
      have h : attempt k = some v := by simpa using hv
      simp [openfileFuel, h]
  | succ n ih =>
    intro k fuel hfuel hv hnone
    match fuel, hfuel with
    | fuel + 1, hfuel =>
      have h0 : attempt k = none := by simpa using hnone 0 (Nat.succ_pos n)
      simp only [openfileFuel, h0]
      exact ih (k + 1) fuel (Nat.lt_of_succ_lt_succ hfuel)
        (by rw [Nat.add_right_comm]; exact hv)
        (fun m hm => by rw [Nat.add_right_comm]; exact hnone (m + 1) (Nat.succ_lt_succ hm))

/-- `openfileFuel` never produces a value when every attempt fails. -/
theorem openfileFuel_all_fail {α : Type _} (attempt : ℕ → Option α)
    (h : ∀ n, attempt n = none) :
    ∀ (fuel k : ℕ), openfileFuel attempt k fuel = none := by
  intro fuel
  induction fuel with
  | zero => intro k; rfl
  | succ fuel ih => intro k; simp [openfileFuel, h k, ih]

/-- `get2dRetryFuel` returns the first successful attempt, given enough
fuel. -/
theorem get2dRetryFuel_first_success {α : Type _} (attempt : ℕ → Option α)
    (v : α) :
    ∀ (n k fuel : ℕ), n < fuel → attempt (k + n) = some v →
      (∀ m, m < n → attempt (k + m) = none) →
      get2dRetryFuel attempt k fuel = some v := by
  intro n
  induction n with
  | zero =>
    intro k fuel hfuel hv _
    match fuel, hfuel with
    | fuel + 1, _ =>
      have h : attempt k = some v := by simpa using hv
      simp [get2dRetryFuel, h]
  | succ n ih =>
    intro k fuel hfuel hv hnone
    match fuel, hfuel with
    | fuel + 1, hfuel =>
      have h0 : attempt k = none := by simpa using hnone 0 (Nat.succ_pos n)
      simp only [get2dRetryFuel, h0]
      exact ih (k + 1) fuel (Nat.lt_of_succ_lt_succ hfuel)
        (by rw [Nat.add_right_comm]; exact hv)
        (fun m hm => by rw [Nat.add_right_comm]; exact hnone (m + 1) (Nat.succ_lt_succ hm))

/-- `get2dRetryFuel` never produces a value when every attempt fails. -/
theorem get2dRetryFuel_all_fail {α : Type _} (attempt : ℕ → Option α)
    (h : ∀ n, attempt n = none) :
    ∀ (fuel k : ℕ), get2dRetryFuel attempt k fuel = none := by
  intro fuel
  induction fuel with
  | zero => intro k; rfl
  | succ fuel ih => intro k; simp [get2dRetryFuel, h k, ih]

/-- Unrolling the variable loop of `GetDAP.__call__`. -/
theorem getdap_call_foldl (load : ℕ → ℤ) (writeOut : Bool) :
    ∀ (vars : List ℕ) (acc : List (ℕ × ℤ) × Option ℤ),
      (vars.foldl (fun acc vv =>
          (if writeOut then acc.1 ++ [(vv, load vv)] else acc.1,
           some (load vv))) acc)
        = (acc.1 ++ (if writeOut then vars.map (fun vv => (vv, load vv)) else []),
           match vars.getLast? with
           | some v => some (load v)
           | none => acc.2) := by
  intro vars
  induction vars with
  | nil => intro acc; cases writeOut <;> simp
  | cons v vs ih =>
    intro acc
    rw [List.foldl_cons, ih]
    cases hgl : vs.getLast? with
    | none =>
      have hvs : vs = [] := List.getLast?_eq_none_iff.mp hgl
      subst hvs
      cases writeOut <;> simp
    | some x =>
      have hcons : (v :: vs).getLast? = some x := by
        cases vs with
        | nil => simp at hgl
        | cons w ws => rw [List.getLast?_cons_cons]; exact hgl
      cases writeOut <;> simp [hgl, hcons]

/-! ## Claim theorems -/

/-- Claim C2 (code_bug): at `GetDAP.__call__`, `trange = None` is not
accepted: `check_trange` subscripts `None` and raises `TypeError` before the
time-index resolution that would honour `None` is ever reached; had the
`None` reached `GridDAP.get_time_indices` (as `GridDAP.get_data`'s docstring
promises), the resolved window on a 10-step native time axis would be
`(0, 10)` and the bulk read's first dimension would be 10. -/
theorem c2_none_trange_raises (strptime : String → ℤ) (fn : ℤ → ℕ)
    (read : ℕ → ℤ) :
    check_trange strptime .noneArg = .raised "TypeError" ∧
    get_time_indices fn 10 none = (0, 10) ∧
    (bulk3d read (get_time_indices fn 10 none).1
      (get_time_indices fn 10 none).2).length = 10 := by
  refine ⟨rfl, rfl, ?_⟩
  simp [bulk3d, get_time_indices]

/-- Claim C3 counterexample: on the x axis the resolved window is not
widened; with axis `X = [0, 10]` and requested range `(4, 4)` both endpoints
resolve to index 0 and the resolved window has length 0, refuting
"end - start >= 1 on every axis". -/
theorem c3_counterexample :
    (get_indices_1d [0, 10] [0, 10] (some (4, 4)) none).nx = 0 ∧
    ¬ 1 ≤ (get_indices_1d [0, 10] [0, 10] (some (4, 4)) none).nx := by
  decide

/-- Claim C3 as amended: only the time and depth axes are widened when the
resolved start equals the resolved end (the x and y axes are not, and may
resolve to windows of length 0). -/
theorem c3_time_depth_widened (fn : ℤ → ℕ) (len : ℕ) (a b : ℤ)
    (Z : List ℤ) (za zb : ℤ) (ht : fn a = fn b)
    (hz : find_nearest_1d Z za = find_nearest_1d Z zb) :
    (get_time_indices fn len (some (a, b))).2 =
      (get_time_indices fn len (some (a, b))).1 + 1 ∧
    (get_z_indices Z (some (za, zb))).2 =
      (get_z_indices Z (some (za, zb))).1 + 1 := by
  constructor
  · simp [get_time_indices, ht]
  · simp [get_z_indices, hz]

/-- Witness for the amended claim C3 at a concrete input. -/
theorem c3_time_depth_widened_witness :
    ((fun _ : ℤ => 3) 0 = (fun _ : ℤ => 3) 1) ∧
    (find_nearest_1d [5] 0 = find_nearest_1d [5] 2) ∧
    ((get_time_indices (fun _ : ℤ => 3) 10 (some (0, 1))).2 =
      (get_time_indices (fun _ : ℤ => 3) 10 (some (0, 1))).1 + 1 ∧
     (get_z_indices [5] (some (0, 2))).2 =
      (get_z_indices [5] (some (0, 2))).1 + 1) :=
  ⟨by decide, by decide,
    c3_time_depth_widened (fun _ : ℤ => 3) 10 0 1 [5] 0 2 (by decide) (by decide)⟩

/-- Claim C6 counterexample: when the pre-computed record count `self.nt`
differs from the window length `t2 - t1` (as happens for the per-file
sub-window calls issued by `get_data_multifile`), the fallback path returns
an array of a different shape than the bulk read: with `nt = 2` and window
`[0, 1)` the fallback returns 2 rows (one of them still zero) while the
bulk read returns 1. -/
theorem c6_counterexample :
    fallback3d (7 : ℤ) (fun i => (i : ℤ)) 2 0 1 ≠
      bulk3d (fun i => (i : ℤ)) 0 1 ∧
    fallback3d (7 : ℤ) (fun i => (i : ℤ)) 2 0 1 = [0, 7] ∧
    bulk3d (fun i => (i : ℤ)) 0 1 = [0] := by
  refine ⟨by decide, by decide, by decide⟩

/-- Claim C6 as amended: whenever the pre-computed record count equals the
window length `t2 - t1` (always the case on the single-file path, where
`self.nt = self.t2 - self.t1`), a fully successful step-by-step fallback
returns exactly the rows a successful bulk read over the same window
returns, for both 3-D and 4-D variables. -/
theorem c6_fallback_eq_bulk {ρ : Type _} (zero : ρ) (readRec : ℕ → ρ)
    (t1 t2 : ℕ) :
    fallback3d zero readRec (t2 - t1) t1 t2 = bulk3d readRec t1 t2 ∧
    fallback4d zero readRec (t2 - t1) t1 t2 = bulk4d readRec t1 t2 := by
  constructor
  · have := setRange_eq_map (fun ii => readRec (t1 + ii)) (t2 - t1)
      (List.replicate (t2 - t1) zero) (by simp)
    simpa [fallback3d, get_3d_step_noerr, bulk3d] using this
  · have := setRange_eq_map (fun ii => readRec (t1 + ii)) (t2 - t1)
      (List.replicate (t2 - t1) zero) (by simp)
    simpa [fallback4d, get_4d_step_noerr, bulk4d] using this

/-- Claim C8 counterexample: a 2-dimensional variable comes back as the raw
2-D slice (the single-record `(1, ny, nx)` allocation is discarded when
`get_2d` rebinds `data`), so its shape is `(ny, nx)`, not `(1, ny, nx)`. -/
theorem c8_counterexample :
    ndshape (ndim2_branch [[1, 2, 3], [4, 5, 6]] 2 3) = [2, 3] ∧
    ndshape (ndim2_branch [[1, 2, 3], [4, 5, 6]] 2 3) ≠ [1, 2, 3] := by
  refine ⟨rfl, by decide⟩

/-- Claim C8 as amended: for a 2-dimensional variable the `ndim == 2` branch
of `get_data_singlefile` returns the raw two-dimensional slice, of shape
`(y-extent, x-extent)` for the requested spatial window. -/
theorem c8_2d_returns_raw_slice (slice : List (List ℤ)) (ny nx : ℕ)
    (hy : slice.length = ny) (hpos : 0 < ny)
    (hx : ∀ row ∈ slice, row.length = nx) :
    ndshape (ndim2_branch slice ny nx) = [ny, nx] := by
  cases slice with
  | nil => simp at hy; omega
  | cons r rest =>
    have hr : r.length = nx := hx r (List.mem_cons_self r rest)
    simp only [ndim2_branch, get_2d_ok, mat_to_nd, List.map_cons, ndshape]
    rw [List.length_map]
    have hny : rest.length + 1 = ny := by simpa using hy
    rw [hny]
    cases r with
    | nil =>
      have hnx : nx = 0 := by simpa using hr.symm
      simp [ndshape, hnx]
    | cons x xs =>
      simp only [List.map_cons, ndshape, List.length_map]
      have : xs.length + 1 = nx := by simpa using hr
      rw [this]

/-- Witness for the amended claim C8 at a concrete input. -/
theorem c8_2d_returns_raw_slice_witness :
    (([[1, 2], [3, 4]] : List (List ℤ)).length = 2 ∧ 0 < 2 ∧
      (∀ row ∈ ([[1, 2], [3, 4]] : List (List ℤ)), row.length = 2)) ∧
    ndshape (ndim2_branch [[1, 2], [3, 4]] 2 2) = [2, 2] :=
  ⟨⟨by decide, by decide, by decide⟩,
    c8_2d_returns_raw_slice [[1, 2], [3, 4]] 2 2 (by decide) (by decide) (by decide)⟩

/-- Claim C9: every failed remote open in `get_data_multifile.openfile` and
every failed 2-D remote read in `get_2d` is retried with no attempt cap and
without surfacing the failure: if the n-th attempt is the first to succeed
the recursion returns its value (for any fuel beyond n), and if every
attempt fails the recursion never returns a value at any depth. -/
theorem c9_retry_forever {α : Type _} (attempt : ℕ → Option α) (n : ℕ)
    (v : α) :
    ((∀ m, attempt m = none) →
      ∀ fuel k, openfileFuel attempt k fuel = none ∧
        get2dRetryFuel attempt k fuel = none) ∧
    (attempt n = some v → (∀ m, m < n → attempt m = none) →
      ∀ fuel, n < fuel → openfileFuel attempt 0 fuel = some v ∧
        get2dRetryFuel attempt 0 fuel = some v) := by
  constructor
  · intro h fuel k
    exact ⟨openfileFuel_all_fail attempt h fuel k,
      get2dRetryFuel_all_fail attempt h fuel k⟩
  · intro hv hnone fuel hfuel
    refine ⟨openfileFuel_first_success attempt v n 0 fuel hfuel (by simpa using hv)
        (fun m hm => by simpa using hnone m hm), ?_⟩
    exact get2dRetryFuel_first_success attempt v n 0 fuel hfuel (by simpa using hv)
      (fun m hm => by simpa using hnone m hm)

/-- Witness for claim C9 at a concrete attempt sequence (first success at
attempt 2). -/
theorem c9_retry_forever_witness :
    ((fun m => if m = 2 then some (42 : ℤ) else none) 2 = some 42 ∧
      (∀ m, m < 2 → (fun m => if m = 2 then some (42 : ℤ) else none) m = none) ∧
      (2 : ℕ) < 5) ∧
    openfileFuel (fun m => if m = 2 then some (42 : ℤ) else none) 0 5 = some 42 ∧
    get2dRetryFuel (fun m => if m = 2 then some (42 : ℤ) else none) 0 5 = some 42 :=
  ⟨⟨by decide, by decide, by decide⟩,
    (c9_retry_forever (fun m => if m = 2 then some (42 : ℤ) else none) 2 42).2
      (by decide) (by decide) 5 (by decide)⟩

/-- Claim C10: with several variables requested, `GetDAP.__call__` returns
only the data of the last variable in the requested list; the earlier
variables' data reaches the output store writes (when an output file was
given) but not the return value. -/
theorem c10_returns_last_only (load : ℕ → ℤ) (writeOut : Bool)
    (vars : List ℕ) (v : ℕ) (_hlen : 2 ≤ vars.length)
    (hlast : vars.getLast? = some v) :
    (getdap_call load writeOut vars).2 = some (load v) ∧
    (getdap_call load writeOut vars).1 =
      (if writeOut then vars.map (fun vv => (vv, load vv)) else []) := by
  unfold getdap_call
  rw [getdap_call_foldl]
  simp [hlast]

/-- Witness for claim C10 at a concrete input. -/
theorem c10_returns_last_only_witness :
    (2 ≤ ([0, 1] : List ℕ).length ∧ ([0, 1] : List ℕ).getLast? = some 1) ∧
    (getdap_call (fun n => (n : ℤ)) true [0, 1]).2 = some 1 ∧
    (getdap_call (fun n => (n : ℤ)) true [0, 1]).1 = [(0, 0), (1, 1)] := by
  have h := c10_returns_last_only (fun n => (n : ℤ)) true [0, 1] 1
    (by decide) (by decide)
  exact ⟨⟨by decide, by decide⟩, by simpa using h.1, by rw [h.2]; decide⟩

/-- Unfolding `write_time_var` on a store that already has a time
variable, when the exact lookup succeeded. -/
theorem write_time_var_some (i : ℕ) (tvals tout : List ℤ)
    (hvar : tvals ≠ []) :
    write_time_var (some i) tvals tout =
      if tvals.length < i + tout.length then
        ((i, i + tout.length), slice_assign tvals i tout)
      else ((i, i + tout.length), tvals) := by
  unfold write_time_var
  rw [if_pos hvar]

/-- Unfolding `write_time_var` on a store that already has a time
variable, when the exact lookup raised. -/
theorem write_time_var_none (tvals tout : List ℤ) (hvar : tvals ≠ []) :
    write_time_var none tvals tout =
      if tvals.length <
          (if tvals.headD 0 < tout.headD 0 then 1 else 0) + tout.length then
        ((if tvals.headD 0 < tout.headD 0 then 1 else 0,
          (if tvals.headD 0 < tout.headD 0 then 1 else 0) + tout.length),
          slice_assign tvals (if tvals.headD 0 < tout.headD 0 then 1 else 0)
            tout)
      else
        ((if tvals.headD 0 < tout.headD 0 then 1 else 0,
          (if tvals.headD 0 < tout.headD 0 then 1 else 0) + tout.length),
          tvals) := by
  unfold write_time_var
  rw [if_pos hvar]

/-- Claim C7: with a stored time axis present, the append offset is the
exact stored position of the first new timestamp when `date2index`
succeeds; when the exact lookup raises, the offset falls back to 1 if the
first new timestamp exceeds the first stored one and 0 otherwise; and the
time values are (re)written exactly when the stored axis is shorter than
the end of the new window, the write being a no-op otherwise. -/
theorem c7_append_offset (lookup? : Option ℕ) (tvals tout : List ℤ)
    (hvar : tvals ≠ [])
    (hexact : ∀ i, lookup? = some i → tvals.get? i = some (tout.headD 0)) :
    (∀ i, lookup? = some i →
      (write_time_var lookup? tvals tout).1.1 = i ∧
      tvals.get? (write_time_var lookup? tvals tout).1.1 =
        some (tout.headD 0)) ∧
    (lookup? = none →
      (write_time_var lookup? tvals tout).1.1 =
        (if tvals.headD 0 < tout.headD 0 then 1 else 0)) ∧
    (write_time_var lookup? tvals tout).1.2 =
      (write_time_var lookup? tvals tout).1.1 + tout.length ∧
    (tvals.length < (write_time_var lookup? tvals tout).1.1 + tout.length →
      (write_time_var lookup? tvals tout).2 =
        slice_assign tvals (write_time_var lookup? tvals tout).1.1 tout) ∧
    (¬ tvals.length < (write_time_var lookup? tvals tout).1.1 + tout.length →
      (write_time_var lookup? tvals tout).2 = tvals) := by
  cases lookup? with
  | none =>
    rw [write_time_var_none tvals tout hvar]
    by_cases hlt : tvals.length <
        (if tvals.headD 0 < tout.headD 0 then 1 else 0) + tout.length
    · rw [if_pos hlt]
      refine ⟨?_, ?_, ?_, ?_, ?_⟩
      · intro i hi
        exact absurd hi (by simp)
      · intro _
        rfl
      · rfl
      · intro _
        rfl
      · intro h
        exact absurd hlt h
    · rw [if_neg hlt]
      refine ⟨?_, ?_, ?_, ?_, ?_⟩
      · intro i hi
        exact absurd hi (by simp)
      · intro _
        rfl
      · rfl
      · intro h
        exact absurd h hlt
      · intro _
        rfl
  | some i =>
    have hi := hexact i rfl
    rw [write_time_var_some i tvals tout hvar]
    by_cases hlt : tvals.length < i + tout.length
    · rw [if_pos hlt]
      refine ⟨?_, ?_, ?_, ?_, ?_⟩
      · intro j hj
        obtain rfl : i = j := Option.some.inj hj
        exact ⟨rfl, hi⟩
      · intro h
        exact absurd h (by simp)
      · rfl
      · intro _
        rfl
      · intro h
        exact absurd hlt h
    · rw [if_neg hlt]
      refine ⟨?_, ?_, ?_, ?_, ?_⟩
      · intro j hj
        obtain rfl : i = j := Option.some.inj hj
        exact ⟨rfl, hi⟩
      · intro h
        exact absurd h (by simp)
      · rfl
      · intro h
        exact absurd h hlt
      · intro _
        rfl

/-- Witness for claim C7 at a concrete input: store `[10, 20]`, new window
`[20, 30]`, exact lookup finding 20 at index 1. -/
theorem c7_append_offset_witness :
    (write_time_var (some 1) [10, 20] [20, 30]).1.1 = 1 ∧
    ([10, 20] : List ℤ).get? (write_time_var (some 1) [10, 20] [20, 30]).1.1 =
      some (([20, 30] : List ℤ).headD 0) ∧
    (write_time_var (some 1) [10, 20] [20, 30]).2 =
      slice_assign [10, 20] (write_time_var (some 1) [10, 20] [20, 30]).1.1
        [20, 30] := by
  have h := c7_append_offset (some 1) [10, 20] [20, 30] (by decide)
    (fun i hi => by cases hi; decide)
  refine ⟨(h.1 1 rfl).1, (h.1 1 rfl).2, h.2.2.2.1 ?_⟩
  rw [(h.1 1 rfl).1]
  decide

/-- Claim C1 counterexample: two `write_var` calls with overlapping windows.
The first call stores timestamps `[10, 20]` (rows `[100, 200]` at positions
0 and 1); the second call, for timestamps `[20, 30]` with the exact lookup
finding 20 at stored index 1, writes data rows at positions 1 and 2 — so
position 1, the row of timestamp 20, is written by both calls (twice in
total), refuting "each timestamp's data row is written exactly once". -/
theorem c1_counterexample :
    ((write_var none ⟨[], []⟩ [10, 20] [100, 200]).1.tvals = [10, 20]) ∧
    ((write_var none ⟨[], []⟩ [10, 20] [100, 200]).2 = [0, 1]) ∧
    ((write_var (some 1) (write_var none ⟨[], []⟩ [10, 20] [100, 200]).1
        [20, 30] [200, 300]).2 = [1, 2]) ∧
    (((write_var none ⟨[], []⟩ [10, 20] [100, 200]).2 ++
      (write_var (some 1) (write_var none ⟨[], []⟩ [10, 20] [100, 200]).1
        [20, 30] [200, 300]).2).count 1 = 2) := by
  decide

/-- Claim C1 as amended: a second call whose window overlaps the stored
axis (first new timestamp found at stored index `i`) writes every data row
of its resolved window `[i, i + n)`, including the previously written
overlap positions, which are overwritten in place; rows before index `i`
are untouched, and the store keeps exactly one row per position (the axis
becomes `stored[0:i] ++ new`), so rows are re-written rather than
duplicated. -/
theorem c1_overlap_rewritten (st : Store) (tout data : List ℤ) (i : ℕ)
    (hvar : st.tvals ≠ []) (hrows : st.rows.length = st.tvals.length)
    (hi : i ≤ st.tvals.length) (hov : st.tvals.length < i + tout.length)
    (hdata : data.length = tout.length) :
    (write_var (some i) st tout data).2 = List.range' i tout.length ∧
    (write_var (some i) st tout data).1.rows = st.rows.take i ++ data ∧
    (write_var (some i) st tout data).1.rows.take i = st.rows.take i ∧
    (write_var (some i) st tout data).1.tvals = st.tvals.take i ++ tout := by
  unfold write_var
  rw [write_time_var_some i st.tvals tout hvar]
  rw [if_pos hov]
  have hdrop_rows : st.rows.drop (i + data.length) = [] := by
    apply List.drop_eq_nil_of_le
    omega
  have hdrop_tvals : st.tvals.drop (i + tout.length) = [] := by
    apply List.drop_eq_nil_of_le
    omega
  have htake : (st.rows.take i).length = i := by
    rw [List.length_take]
    omega
  refine ⟨by simp, ?_, ?_, ?_⟩
  · simp [slice_assign, hdrop_rows]
  · simp only [slice_assign, hdrop_rows, List.append_nil]
    rw [List.take_append_of_le_length (by omega), List.take_take]
    simp
  · simp [slice_assign, hdrop_tvals]

/-- Witness for the amended claim C1 at a concrete input. -/
theorem c1_overlap_rewritten_witness :
    (write_var (some 1) ⟨[10, 20], [100, 200]⟩ [20, 30] [200, 300]).2 =
      List.range' 1 2 ∧
    (write_var (some 1) ⟨[10, 20], [100, 200]⟩ [20, 30] [200, 300]).1.rows =
      [100, 200, 300] ∧
    (write_var (some 1) ⟨[10, 20], [100, 200]⟩
        [20, 30] [200, 300]).1.rows.take 1 = [100] ∧
    (write_var (some 1) ⟨[10, 20], [100, 200]⟩ [20, 30] [200, 300]).1.tvals =
      [10, 20, 30] := by
  have h := c1_overlap_rewritten ⟨[10, 20], [100, 200]⟩ [20, 30] [200, 300] 1
    (by decide) (by decide) (by decide) (by decide) (by decide)
  refine ⟨h.1, ?_, ?_, ?_⟩
  · rw [h.2.1]; decide
  · rw [h.2.2.1]; decide
  · rw [h.2.2.2]; decide

/-! ### Lemmas on the dict model (claim C4) -/

/-- After replacing every entry keyed `k` by `(k, v)`, a `find?` for `k`
returns `(k, v)`, provided some entry has key `k`. -/
theorem find?_replace_same (k : ℤ) (v : ℕ × ℕ) :
    ∀ lk : List (ℤ × ℕ × ℕ), lk.any (fun e => e.1 == k) →
      (lk.map (fun e => if e.1 == k then (k, v) else e)).find?
        (fun e => e.1 == k) = some (k, v) := by
  intro lk
  induction lk with
  | nil => intro h; simp at h
  | cons e tl ih =>
    intro h
    rw [List.map_cons]
    by_cases he : e.1 = k
    · rw [if_pos (by simpa using he)]
      rw [List.find?_cons_of_pos _ (by simp)]
    · rw [if_neg (by simpa using he)]
      rw [List.find?_cons_of_neg _ (by simpa using he)]
      exact ih (by simpa [List.any_cons, he] using h)

/-- Appending a fresh entry `(k, v)` makes a `find?` for `k` return it,
provided no earlier entry has key `k`. -/
theorem find?_append_new (k : ℤ) (v : ℕ × ℕ) :
    ∀ lk : List (ℤ × ℕ × ℕ), ¬ lk.any (fun e => e.1 == k) →
      (lk ++ [(k, v)]).find? (fun e => e.1 == k) = some (k, v) := by
  intro lk
  induction lk with
  | nil =>
    intro _
    rw [List.nil_append]
    rw [List.find?_cons_of_pos _ (by simp)]
  | cons e tl ih =>
    intro h
    have he : ¬ e.1 = k := by
      intro hk
      exact h (by simp [List.any_cons, hk])
    rw [List.cons_append, List.find?_cons_of_neg _ (by simpa using he)]
    exact ih (fun hk => h (by simp [List.any_cons, hk]))

/-- Looking up the key just assigned returns the assigned value. -/
theorem lookupGet_dictInsert_same (k : ℤ) (v : ℕ × ℕ)
    (lk : List (ℤ × ℕ × ℕ)) : lookupGet (dictInsert lk k v) k = some v := by
  unfold dictInsert lookupGet
  by_cases h : lk.any (fun e => e.1 == k)
  · rw [if_pos h, find?_replace_same k v lk h]
    rfl
  · rw [if_neg h, find?_append_new k v lk h]
    rfl

/-- Replacing entries keyed `k'` does not affect a `find?` for a different
key `k`. -/
theorem find?_replace_ne (k' k : ℤ) (v : ℕ × ℕ) (hk : k' ≠ k) :
    ∀ lk : List (ℤ × ℕ × ℕ),
      (lk.map (fun e => if e.1 == k' then (k', v) else e)).find?
        (fun e => e.1 == k) = lk.find? (fun e => e.1 == k) := by
  intro lk
  induction lk with
  | nil => rfl
  | cons e tl ih =>
    rw [List.map_cons]
    by_cases he : e.1 = k'
    · rw [if_pos (by simpa using he)]
      rw [List.find?_cons_of_neg _ (by simpa using hk),
        List.find?_cons_of_neg _ (by simp [he]; exact hk), ih]
    · rw [if_neg (by simpa using he)]
      by_cases hek : e.1 = k
      · rw [List.find?_cons_of_pos _ (by simpa using hek),
          List.find?_cons_of_pos _ (by simpa using hek)]
      · rw [List.find?_cons_of_neg _ (by simpa using hek),
          List.find?_cons_of_neg _ (by simpa using hek), ih]

/-- Appending a fresh entry keyed `k'` does not affect a `find?` for a
different key `k`. -/
theorem find?_append_ne (k' k : ℤ) (v : ℕ × ℕ) (hk : k' ≠ k) :
    ∀ lk : List (ℤ × ℕ × ℕ),
      (lk ++ [(k', v)]).find? (fun e => e.1 == k) =
        lk.find? (fun e => e.1 == k) := by
  intro lk
  induction lk with
  | nil =>
    rw [List.nil_append, List.find?_cons_of_neg _ (by simpa using hk)]
  | cons e tl ih =>
    by_cases hek : e.1 = k
    · rw [List.cons_append, List.find?_cons_of_pos _ (by simpa using hek),
        List.find?_cons_of_pos _ (by simpa using hek)]
    · rw [List.cons_append, List.find?_cons_of_neg _ (by simpa using hek),
        List.find?_cons_of_neg _ (by simpa using hek), ih]

/-- Assigning a different key leaves a lookup unchanged. -/
theorem lookupGet_dictInsert_ne (k' k : ℤ) (v : ℕ × ℕ) (hk : k' ≠ k)
    (lk : List (ℤ × ℕ × ℕ)) :
    lookupGet (dictInsert lk k' v) k = lookupGet lk k := by
  unfold dictInsert lookupGet
  by_cases h : lk.any (fun e => e.1 == k')
  · rw [if_pos h, find?_replace_ne k' k v hk lk]
  · rw [if_neg h, find?_append_ne k' k v hk lk]

/-- The lookup state reached by the `enumerate(time)` loop of
`MFncdap.__init__` maps `t` to `(f, last index of t)` when `t` occurs,
falling through to the previous lookup otherwise. -/
theorem lookupGet_insertAux (f : ℕ) (t : ℤ) :
    ∀ (ts : List ℤ) (i : ℕ) (lk : List (ℤ × ℕ × ℕ)),
      lookupGet (insertFileTimesAux f ts i lk) t =
        (match lastIdxFrom ts i t with
         | some j => some (f, j)
         | none => lookupGet lk t) := by
  intro ts
  induction ts with
  | nil => intro i lk; rfl
  | cons x ts ih =>
    intro i lk
    rw [show insertFileTimesAux f (x :: ts) i lk =
        insertFileTimesAux f ts (i + 1) (dictInsert lk x (f, i)) from rfl]
    rw [ih (i + 1) (dictInsert lk x (f, i))]
    cases hl : lastIdxFrom ts (i + 1) t with
    | some j => simp [lastIdxFrom, hl]
    | none =>
      by_cases hx : x = t
      · subst hx
        simp [lastIdxFrom, hl, lookupGet_dictInsert_same]
      · simp [lastIdxFrom, hl, hx, lookupGet_dictInsert_ne x t (f, i) hx]

/-- The lookup built across files equals a per-file fold of last-write
entries. -/
theorem lookupGet_mfLoop (t : ℤ) :
    ∀ (files : List (ℕ × List ℤ)) (lk : List (ℤ × ℕ × ℕ)),
      lookupGet (files.foldl (fun lk fd => insertFileTimes lk fd.1 fd.2) lk) t
        = files.foldl
            (fun acc fd =>
              match lastIdxFrom fd.2 0 t with
              | some j => some (fd.1, j)
              | none => acc) (lookupGet lk t) := by
  intro files
  induction files with
  | nil => intro lk; rfl
  | cons fd fs ih =>
    intro lk
    rw [List.foldl_cons, List.foldl_cons, ih]
    congr 1
    exact lookupGet_insertAux fd.1 t fd.2 0 lk

/-- `MFncdap.__init__`'s lookup realises the last-writer-wins
specification. -/
theorem mfLookup_eq_lastEntry (files : List (ℕ × List ℤ)) (t : ℤ) :
    lookupGet (mfLookup files) t = mfLastEntry files t := by
  unfold mfLookup mfLastEntry
  rw [lookupGet_mfLoop]
  rfl

/-- `lastIdxFrom` fails exactly on absent timestamps. -/
theorem lastIdxFrom_eq_none (t : ℤ) :
    ∀ (ts : List ℤ) (i : ℕ), lastIdxFrom ts i t = none ↔ t ∉ ts := by
  intro ts
  induction ts with
  | nil => intro i; simp [lastIdxFrom]
  | cons x ts ih =>
    intro i
    simp only [lastIdxFrom]
    cases hl : lastIdxFrom ts (i + 1) t with
    | some j =>
      have : t ∈ ts := by
        by_contra hmem
        rw [← ih (i + 1)] at hmem
        rw [hmem] at hl
        cases hl
      simp [this]
    | none =>
      have hmem : t ∉ ts := (ih (i + 1)).mp hl
      by_cases hx : x = t
      · simp [hx, hmem]
      · simp [hx, hmem, Ne.symm hx]

/-- A successful `lastIdxFrom` points at the last occurrence. -/
theorem lastIdxFrom_eq_some (t : ℤ) :
    ∀ (ts : List ℤ) (i j : ℕ), lastIdxFrom ts i t = some j →
      i ≤ j ∧ ts.get? (j - i) = some t ∧
        ∀ m, j - i < m → ts.get? m ≠ some t := by
  intro ts
  induction ts with
  | nil => intro i j h; cases h
  | cons x ts ih =>
    intro i j h
    simp only [lastIdxFrom] at h
    cases hl : lastIdxFrom ts (i + 1) t with
    | some j₀ =>
      rw [hl] at h
      have hjj : j₀ = j := Option.some.inj h
      rw [hjj] at hl
      obtain ⟨hij, hget, hlast⟩ := ih (i + 1) j hl
      have hji : j - i = (j - (i + 1)) + 1 := by omega
      refine ⟨by omega, ?_, ?_⟩
      · rw [hji]
        simpa using hget
      · intro m hm
        rw [hji] at hm
        match m, hm with
        | m + 1, hm =>
          simpa using hlast m (by omega)
    | none =>
      rw [hl] at h
      have h' : (if x = t then some i else none) = some j := h
      by_cases hx : x = t
      · rw [if_pos hx] at h'
        have hij : i = j := Option.some.inj h'
        subst hij
        have hmem : t ∉ ts := (lastIdxFrom_eq_none t ts (i + 1)).mp hl
        refine ⟨le_refl i, by simpa using hx, ?_⟩
        intro m hm
        match m, hm with
        | m + 1, _ =>
          intro hc
          exact hmem (List.get?_mem (by simpa using hc))
      · rw [if_neg hx] at h'
        cases h'

/-- Files that do not report `t` leave the last-entry fold unchanged. -/
theorem mfLastEntry_skip (t : ℤ) :
    ∀ (fs : List (ℕ × List ℤ)) (acc : Option (ℕ × ℕ)),
      (∀ fd ∈ fs, t ∉ fd.2) →
      fs.foldl
        (fun acc fd =>
          match lastIdxFrom fd.2 0 t with
          | some j => some (fd.1, j)
          | none => acc) acc = acc := by
  intro fs
  induction fs with
  | nil => intro acc _; rfl
  | cons fd fs ih =>
    intro acc hfs
    rw [List.foldl_cons]
    have hnone : lastIdxFrom fd.2 0 t = none :=
      (lastIdxFrom_eq_none t fd.2 0).mpr (hfs fd (List.mem_cons_self fd fs))
    rw [hnone]
    exact ih acc (fun g hg => hfs g (List.mem_cons_of_mem fd hg))

/-- Membership in the concatenation of all files' time axes. -/
theorem mem_flattenFiles (t : ℤ) :
    ∀ files : List (ℕ × List ℤ),
      t ∈ files.foldr (fun fd acc => fd.2 ++ acc) [] ↔
        ∃ fd ∈ files, t ∈ fd.2 := by
  intro files
  induction files with
  | nil => simp
  | cons fd fs ih => simp [List.mem_append, ih]

/-- The logical time axis is strictly sorted (sorted with no
duplicates). -/
theorem mfTime_sorted (files : List (ℕ × List ℤ)) :
    (mfTime files).Sorted (· < ·) := by
  unfold mfTime npUnique
  have hs : (List.insertionSort (· ≤ ·)
      (files.foldr (fun fd acc => fd.2 ++ acc) [])).Sorted (· ≤ ·) :=
    List.sorted_insertionSort _ _
  have hsub := List.dedup_sublist (List.insertionSort (· ≤ ·)
      (files.foldr (fun fd acc => fd.2 ++ acc) []))
  have hs2 : ((List.insertionSort (· ≤ ·)
      (files.foldr (fun fd acc => fd.2 ++ acc) [])).dedup).Sorted (· ≤ ·) :=
    List.Pairwise.sublist hsub hs
  exact hs2.lt_of_le (List.nodup_dedup _)

/-- Membership in the logical time axis. -/
theorem mfTime_mem (files : List (ℕ × List ℤ)) (t : ℤ) :
    t ∈ mfTime files ↔ ∃ fd ∈ files, t ∈ fd.2 := by
  unfold mfTime npUnique
  rw [List.mem_dedup, List.mem_insertionSort]
  exact mem_flattenFiles t files

/-- Claim C4: when several files report the same timestamp, the aggregated
lookup maps that timestamp to the `(file, local index)` pair of the
last-processed file reporting it (and within that file, to the last local
index holding it); and the aggregated logical time axis is strictly sorted
(so each timestamp appears exactly once) and contains every reported
timestamp. -/
theorem c4_last_writer_wins (fs₁ fs₂ : List (ℕ × List ℤ)) (fB : ℕ)
    (tsB : List ℤ) (t : ℤ) (htB : t ∈ tsB)
    (hafter : ∀ fd ∈ fs₂, t ∉ fd.2) :
    (∃ j, lookupGet (mfLookup (fs₁ ++ (fB, tsB) :: fs₂)) t = some (fB, j) ∧
      tsB.get? j = some t ∧ ∀ m, j < m → tsB.get? m ≠ some t) ∧
    (mfTime (fs₁ ++ (fB, tsB) :: fs₂)).Sorted (· < ·) ∧
    (mfTime (fs₁ ++ (fB, tsB) :: fs₂)).Nodup ∧
    t ∈ mfTime (fs₁ ++ (fB, tsB) :: fs₂) := by
  refine ⟨?_, mfTime_sorted _, (mfTime_sorted _).nodup, ?_⟩
  · rw [mfLookup_eq_lastEntry]
    unfold mfLastEntry
    rw [List.foldl_append, List.foldl_cons]
    cases hl : lastIdxFrom tsB 0 t with
    | none => exact absurd htB ((lastIdxFrom_eq_none t tsB 0).mp hl)
    | some j =>
      obtain ⟨_, hget, hlast⟩ := lastIdxFrom_eq_some t tsB 0 j hl
      rw [mfLastEntry_skip t fs₂ _ hafter]
      exact ⟨j, rfl, by simpa using hget, fun m hm => by
        simpa using hlast m (by omega)⟩
  · rw [mfTime_mem]
    exact ⟨(fB, tsB), by simp, htB⟩

/-- Witness for claim C4 at a concrete input: files `0 ↦ [5]` and
`1 ↦ [3, 5]` both report timestamp 5; the lookup returns file 1's entry
and the logical axis is `[3, 5]`. -/
theorem c4_last_writer_wins_witness :
    ((5 : ℤ) ∈ ([3, 5] : List ℤ) ∧
      (∀ fd ∈ ([] : List (ℕ × List ℤ)), (5 : ℤ) ∉ fd.2)) ∧
    ((∃ j, lookupGet (mfLookup ([(0, [5])] ++ (1, [3, 5]) :: [])) 5 =
        some (1, j) ∧
      ([3, 5] : List ℤ).get? j = some 5 ∧
        ∀ m, j < m → ([3, 5] : List ℤ).get? m ≠ some 5) ∧
     (mfTime ([(0, [5])] ++ (1, [3, 5]) :: [])).Sorted (· < ·) ∧
     (mfTime ([(0, [5])] ++ (1, [3, 5]) :: [])).Nodup ∧
     (5 : ℤ) ∈ mfTime ([(0, [5])] ++ (1, [3, 5]) :: [])) :=
  ⟨⟨by decide, by simp⟩,
    c4_last_writer_wins [(0, [5])] [] 1 [3, 5] 5 (by decide) (by simp)⟩

/-! ### Lemmas on the per-file grouping and the stitching loop (claim C5) -/

/-- Appending an index for a file that is not yet a key of `tslice_dict`. -/
theorem odInsert_new (d : List (ℕ × List ℕ)) (f t : ℕ)
    (hf : ∀ e ∈ d, e.1 ≠ f) : odInsert d f t = d ++ [(f, [t])] := by
  unfold odInsert
  rw [if_neg]
  intro h
  obtain ⟨e, he, hp⟩ := List.any_eq_true.mp h
  exact hf e he (by simpa using hp)

/-- Appending an index for the file held by the last entry of
`tslice_dict`. -/
theorem odInsert_last (d₀ : List (ℕ × List ℕ)) (f t : ℕ) (acc : List ℕ)
    (hf : ∀ e ∈ d₀, e.1 ≠ f) :
    odInsert (d₀ ++ [(f, acc)]) f t = d₀ ++ [(f, acc ++ [t])] := by
  unfold odInsert
  rw [if_pos (by simp)]
  rw [List.map_append]
  congr 1
  · calc d₀.map (fun e => if e.1 == f then (e.1, e.2 ++ [t]) else e)
        = d₀.map (fun e => e) :=
          List.map_congr_left (fun e he => if_neg (by simpa using hf e he))
      _ = d₀ := List.map_id _
  · simp

/-- Folding a run of indices for the file held by the last entry appends
them all, in order. -/
theorem foldl_odInsert_last (f : ℕ) :
    ∀ (ts : List ℕ) (d₀ : List (ℕ × List ℕ)) (acc : List ℕ),
      (∀ e ∈ d₀, e.1 ≠ f) →
      ts.foldl (fun d t => odInsert d f t) (d₀ ++ [(f, acc)]) =
        d₀ ++ [(f, acc ++ ts)] := by
  intro ts
  induction ts with
  | nil => intro d₀ acc _; simp
  | cons t ts ih =>
    intro d₀ acc hf
    rw [List.foldl_cons, odInsert_last d₀ f t acc hf, ih d₀ (acc ++ [t]) hf]
    simp

/-- Folding all indices of a fresh file's run creates its dict entry, with
every index in order. -/
theorem foldl_odInsert_fresh (f a : ℕ) :
    ∀ (js : List ℕ) (d : List (ℕ × List ℕ)), js ≠ [] →
      (∀ e ∈ d, e.1 ≠ f) →
      js.foldl (fun d j => odInsert d f (a + j)) d =
        d ++ [(f, js.map (fun j => a + j))] := by
  intro js d hjs hf
  match js, hjs with
  | j0 :: js, _ =>
    rw [List.foldl_cons, odInsert_new d f (a + j0) hf]
    rw [← List.foldl_map (fun j => a + j) (fun d t => odInsert d f t)]
    rw [foldl_odInsert_last f (js.map (fun j => a + j)) d [a + j0] hf]
    simp

/-- `buildTslice` over per-file runs (distinct files, nonempty runs) yields
one dict entry per run, keyed in run order, holding the run's local record
indices in order. -/
theorem buildTslice_runs :
    ∀ (runs : List (ℕ × ℕ × ℕ)) (d : List (ℕ × List ℕ)),
      (∀ e ∈ d, ∀ r ∈ runs, e.1 ≠ r.1) →
      (runs.map (fun r => r.1)).Nodup →
      (∀ r ∈ runs, 0 < r.2.2) →
      (runsPairs runs).foldl (fun d p => odInsert d p.1 p.2) d =
        d ++ runs.map (fun r => (r.1, (List.range r.2.2).map (fun j => r.2.1 + j))) := by
  intro runs
  induction runs with
  | nil => intro d _ _ _; simp [runsPairs]
  | cons r rs ih =>
    intro d hd hnod hpos
    have hsplit : runsPairs (r :: rs) = runPairs r ++ runsPairs rs := rfl
    rw [hsplit, List.foldl_append]
    have hrun : (runPairs r).foldl (fun d p => odInsert d p.1 p.2) d =
        d ++ [(r.1, (List.range r.2.2).map (fun j => r.2.1 + j))] := by
      unfold runPairs
      rw [List.foldl_map]
      exact foldl_odInsert_fresh r.1 r.2.1 (List.range r.2.2) d
        (by
          have h1 := hpos r (List.mem_cons_self r rs)
          simp only [ne_eq, List.range_eq_nil]
          omega)
        (fun e he => hd e he r (List.mem_cons_self r rs))
    rw [hrun]
    rw [ih (d ++ [(r.1, (List.range r.2.2).map (fun j => r.2.1 + j))]) ?_ ?_ ?_]
    · simp
    · intro e he r' hr'
      rcases List.mem_append.mp he with he | he
      · exact hd e he r' (List.mem_cons_of_mem r hr')
      · have : e = (r.1, (List.range r.2.2).map (fun j => r.2.1 + j)) := by
          simpa using he
        rw [this]
        intro hc
        have : r.1 ∈ rs.map (fun r => r.1) := List.mem_map.mpr ⟨r', hr', hc.symm⟩
        exact (List.nodup_cons.mp hnod).1 this
    · exact (List.nodup_cons.mp hnod).2
    · exact fun r' hr' => hpos r' (List.mem_cons_of_mem r hr')

/-- Python `min` over a nonempty list extended by one element. -/
theorem pyMin_append_single (l : List ℕ) (y : ℕ) (hl : l ≠ []) :
    pyMin (l ++ [y]) = min (pyMin l) y := by
  match l, hl with
  | x :: xs, _ =>
    show (xs ++ [y]).foldl min x = _
    rw [List.foldl_append]
    rfl

/-- Python `max` over a nonempty list extended by one element. -/
theorem pyMax_append_single (l : List ℕ) (y : ℕ) (hl : l ≠ []) :
    pyMax (l ++ [y]) = max (pyMax l) y := by
  match l, hl with
  | x :: xs, _ =>
    show (xs ++ [y]).foldl max x = _
    rw [List.foldl_append]
    rfl

/-- `min(vals)` of a consecutive run starting at `a` is `a`. -/
theorem pyMin_consec (a : ℕ) :
    ∀ len : ℕ, pyMin ((List.range (len + 1)).map (fun j => a + j)) = a := by
  intro len
  induction len with
  | zero => rfl
  | succ len ih =>
    rw [List.range_succ, List.map_append]
    rw [show List.map (fun j => a + j) [len + 1] = [a + (len + 1)] from rfl]
    rw [pyMin_append_single _ _ (by simp), ih]
    exact min_eq_left (Nat.le_add_right a (len + 1))

/-- `max(vals)` of a consecutive run of `len + 1` indices starting at `a`
is `a + len`. -/
theorem pyMax_consec (a : ℕ) :
    ∀ len : ℕ, pyMax ((List.range (len + 1)).map (fun j => a + j)) = a + len := by
  intro len
  induction len with
  | zero => rfl
  | succ len ih =>
    rw [List.range_succ, List.map_append]
    rw [show List.map (fun j => a + j) [len + 1] = [a + (len + 1)] from rfl]
    rw [pyMax_append_single _ _ (by simp), ih]
    exact max_eq_right (by omega)

/-- The stitching loop, on blocks that exactly tile the remaining rows,
concatenates the block reads after the already-filled rows. -/
theorem stitchLoop_tiles {ρ : Type _} (read : ℕ → ℕ → ρ) :
    ∀ (blocks : List (ℕ × ℕ × ℕ)) (pre rest : List ρ),
      (∀ b ∈ blocks, b.2.1 ≤ b.2.2) →
      rest.length = (blocks.map (fun b => b.2.2 + 1 - b.2.1)).sum →
      stitchLoop read blocks pre.length (pre ++ rest) =
        pre ++ blocks.foldr
          (fun b acc =>
            ((List.range (b.2.2 + 1 - b.2.1)).map
              (fun j => read b.1 (b.2.1 + j))) ++ acc) [] := by
  intro blocks
  induction blocks with
  | nil =>
    intro pre rest _ hlen
    have : rest = [] := List.eq_nil_of_length_eq_zero (by simpa using hlen)
    simp [stitchLoop, this]
  | cons b bs ih =>
    intro pre rest hb hlen
    have hb1 : b.2.1 ≤ b.2.2 := hb b (List.mem_cons_self b bs)
    have hc : b.2.2 + 1 - b.2.1 = (b.2.2 - b.2.1) + 1 := by omega
    simp only [stitchLoop]
    have hchunk : ((List.range (b.2.2 + 1 - b.2.1)).map
        (fun j => read b.1 (b.2.1 + j))).length = b.2.2 + 1 - b.2.1 := by
      simp
    have hwb : writeBlock (pre ++ rest) pre.length
        ((List.range (b.2.2 + 1 - b.2.1)).map (fun j => read b.1 (b.2.1 + j)))
        = (pre ++ (List.range (b.2.2 + 1 - b.2.1)).map
            (fun j => read b.1 (b.2.1 + j))) ++
          rest.drop (b.2.2 + 1 - b.2.1) := by
      unfold writeBlock
      rw [hchunk, List.take_left, List.drop_append]
    rw [hwb]
    have hp1 : pre.length + (b.2.2 - b.2.1) + 1 =
        (pre ++ (List.range (b.2.2 + 1 - b.2.1)).map
          (fun j => read b.1 (b.2.1 + j))).length := by
      rw [List.length_append, hchunk]
      omega
    rw [hp1]
    rw [ih _ (rest.drop (b.2.2 + 1 - b.2.1))
      (fun b' hb' => hb b' (List.mem_cons_of_mem b hb'))
      (by rw [List.length_drop, hlen]; simp)]
    rw [List.foldr_cons, List.append_assoc]

/-- The length of the requested pair sequence is the sum of the run
lengths. -/
theorem runsPairs_length :
    ∀ runs : List (ℕ × ℕ × ℕ),
      (runsPairs runs).length = (runs.map (fun r => r.2.2)).sum := by
  intro runs
  induction runs with
  | nil => rfl
  | cons r rs ih =>
    show (runPairs r ++ runsPairs rs).length = _
    rw [List.length_append, ih]
    simp [runPairs]

/-- Mapping a function over the flattened run pairs. -/
theorem runsPairs_map {ρ : Type _} (g : ℕ × ℕ → ρ) :
    ∀ runs : List (ℕ × ℕ × ℕ),
      (runsPairs runs).map g =
        runs.foldr
          (fun r acc =>
            ((List.range r.2.2).map (fun j => g (r.1, r.2.1 + j))) ++ acc)
          [] := by
  intro runs
  induction runs with
  | nil => rfl
  | cons r rs ih =>
    show (runPairs r ++ runsPairs rs).map g = _
    rw [List.map_append, ih]
    simp [runPairs, List.map_map]

/-- Claim C5: when the requested multi-file window decomposes into per-file
runs of consecutive records (each file contributing one contiguous block of
output positions, files pairwise distinct), `get_data_multifile` fills the
pre-allocated output rows with exactly the requested records in global time
order — row p holds the p-th requested `(file, record)` read — independent
of file-open order (files are opened once each, in window order). -/
theorem c5_stitch_in_order {ρ : Type _} (read : ℕ → ℕ → ρ) (zero : ρ)
    (runs : List (ℕ × ℕ × ℕ))
    (hnod : (runs.map (fun r => r.1)).Nodup)
    (hpos : ∀ r ∈ runs, 0 < r.2.2) :
    get_data_multifile read zero (runsPairs runs).length (runsPairs runs) =
      (runsPairs runs).map (fun p => read p.1 p.2) := by
  unfold get_data_multifile buildTslice
  rw [buildTslice_runs runs [] (by simp) hnod hpos]
  rw [List.nil_append]
  unfold tsliceMinMax
  rw [List.map_map]
  have hmm : (runs.map ((fun e => (e.1, pyMin e.2, pyMax e.2)) ∘
      (fun r => (r.1, (List.range r.2.2).map (fun j => r.2.1 + j))))) =
      runs.map (fun r => (r.1, r.2.1, r.2.1 + r.2.2 - 1)) := by
    apply List.map_congr_left
    intro r hr
    have h1 : 0 < r.2.2 := hpos r hr
    have h2 : r.2.2 = (r.2.2 - 1) + 1 := by omega
    simp only [Function.comp]
    rw [h2, pyMin_consec, pyMax_consec]
    have : r.2.1 + (r.2.2 - 1) = r.2.1 + r.2.2 - 1 := by omega
    rw [this, ← h2]
  rw [hmm]
  have hrepl : List.replicate (runsPairs runs).length zero =
      ([] : List ρ) ++ List.replicate (runsPairs runs).length zero := by simp
  rw [hrepl]
  rw [show (0 : ℕ) = ([] : List ρ).length from rfl]
  rw [stitchLoop_tiles read _ [] _ ?_ ?_]
  · rw [List.nil_append, runsPairs_map (fun p : ℕ × ℕ => read p.1 p.2) runs]
    rw [List.foldr_map]
    show runs.foldr (fun b acc =>
        ((List.range (b.2.1 + b.2.2 - 1 + 1 - b.2.1)).map
          (fun j => read b.1 (b.2.1 + j))) ++ acc) [] =
      runs.foldr (fun r acc =>
        ((List.range r.2.2).map (fun j => read r.1 (r.2.1 + j))) ++ acc) []
    have key : ∀ rs : List (ℕ × ℕ × ℕ), (∀ r ∈ rs, 0 < r.2.2) →
        rs.foldr (fun b acc =>
          ((List.range (b.2.1 + b.2.2 - 1 + 1 - b.2.1)).map
            (fun j => read b.1 (b.2.1 + j))) ++ acc) [] =
        rs.foldr (fun r acc =>
          ((List.range r.2.2).map (fun j => read r.1 (r.2.1 + j))) ++ acc)
          [] := by
      intro rs
      induction rs with
      | nil => intro _; rfl
      | cons r rs ihr =>
        intro hp
        rw [List.foldr_cons, List.foldr_cons,
          ihr (fun r' hr' => hp r' (List.mem_cons_of_mem r hr'))]
        have harith : r.2.1 + r.2.2 - 1 + 1 - r.2.1 = r.2.2 := by
          have h1 := hp r (List.mem_cons_self r rs)
          omega
        rw [harith]
    exact key runs hpos
  · intro b hb
    obtain ⟨r, hr, hbr⟩ := List.mem_map.mp hb
    have h1 : 0 < r.2.2 := hpos r hr
    rw [← hbr]
    simp only []
    omega
  · rw [List.length_replicate, runsPairs_length, List.map_map]
    congr 1
    apply List.map_congr_left
    intro r hr
    have h1 : 0 < r.2.2 := hpos r hr
    simp only [Function.comp]
    omega

/-- Witness for claim C5 at the claim's own example: file A (= 0)
contributes records 3–5, then file B (= 1) contributes records 0–1; the
output rows are A3, A4, A5, B0, B1. -/
theorem c5_stitch_in_order_witness :
    ((([(0, 3, 3), (1, 0, 2)] : List (ℕ × ℕ × ℕ)).map (fun r => r.1)).Nodup ∧
      (∀ r ∈ ([(0, 3, 3), (1, 0, 2)] : List (ℕ × ℕ × ℕ)), 0 < r.2.2)) ∧
    get_data_multifile (fun f i => (f, i)) (0, 0)
        (runsPairs [(0, 3, 3), (1, 0, 2)]).length
        (runsPairs [(0, 3, 3), (1, 0, 2)]) =
      (runsPairs [(0, 3, 3), (1, 0, 2)]).map (fun p => (p.1, p.2)) :=
  ⟨⟨by decide, by decide⟩,
    c5_stitch_in_order (fun f i => (f, i)) (0, 0) [(0, 3, 3), (1, 0, 2)]
      (by decide) (by decide)⟩

end MyThredds
